import Mathlib

/-!
The wasm bridge of notes-git-store (`src/backend/wasm/wasm.go`).

A shallow embedding of the seven host-callable operations of `wasm.go`
(`createFile`, `ls`, `writeNewFile`, `git_clone`, `git_push`, `encrypt_text`,
`decrypt_text`) and of the library calls they make.

* A Go `string` / `[]byte` is a list of bytes, each byte a natural number below 256.
* A call of an operation is modelled by the ordered list of invocations of the
  promise callbacks `resolv` / `reject` made by its background task, together
  with the Go panic, if any, that ended the task.
* Library calls that return `(value, err)` are modelled as pairs of options, so
  that the code's behaviour after an error it did not return from is visible.
-/

namespace NotesGitStore

/-! ## Strings, errors and the promise callbacks -/

/-- A Go string (or byte slice): its bytes, as naturals below 256. -/
abbrev GoStr := List Nat

/-- All elements are bytes. -/
def isBytes (s : GoStr) : Bool := s.all (fun b => decide (b < 256))

/-- The bytes of an ASCII literal. -/
def lit (s : String) : GoStr := s.toList.map Char.toNat

/-- The errors whose `Error()` text is handed to `reject`. -/
inductive GoError where
  /-- The error `hex.InvalidByteError(b)`. -/
  | hexInvalidByte (b : Nat)
  /-- The error `hex.ErrLength`: odd length hex string. -/
  | hexErrLength
  /-- The error `aes.KeySizeError(k)`. -/
  | aesKeySize (k : Nat)
  /-- An error returned by the filesystem or by the version-control engine. -/
  | lib (msg : GoStr)
  /-- The text of `errors.New("file not created")` in `createFile`. -/
  | fileNotCreated
  deriving DecidableEq, Repr

/-- The value passed to `resolv.Invoke`. -/
inductive JsVal where
  /-- A string. -/
  | str (s : GoStr)
  /-- The array built by `ls`. -/
  | arr (names : List GoStr)
  deriving DecidableEq, Repr

/-- One invocation of a promise callback. -/
inductive JsCall where
  /-- The call `resolv.Invoke(v)`. -/
  | resolve (v : JsVal)
  /-- The call `reject.Invoke(Error.New(e.Error()))`. -/
  | reject (e : GoError)
  deriving DecidableEq, Repr

/-- The run-time panics the operations can raise. -/
inductive Panic where
  /-- The slice index `args[i]` with `i ≥ len(args)`. -/
  | indexOutOfRange (i len : Nat)
  /-- A method called through a nil handle. -/
  | nilDereference
  /-- The panic of `cipher.NewCTR` when `len(iv) != block.BlockSize()`. -/
  | ivLength
  deriving DecidableEq, Repr

/-- What one call of an operation did: the callback invocations in order and
the panic that ended it, if any. -/
structure Run where
  /-- Invocations of `resolv` / `reject`, oldest first. -/
  calls : List JsCall
  /-- The panic that ended the call. -/
  panicked : Option Panic
  deriving DecidableEq, Repr

/-- The statement `if err != nil { reject.Invoke(...) }` with no `return`. -/
def rejectIf (err : Option GoError) : List JsCall :=
  match err with
  | some e => [JsCall.reject e]
  | none => []

/-- Number of `resolv` invocations in a run. -/
def Run.resolves (r : Run) : Nat :=
  (r.calls.filter (fun c => match c with | JsCall.resolve _ => true | JsCall.reject _ => false)).length

/-- Number of `reject` invocations in a run. -/
def Run.rejects (r : Run) : Nat :=
  (r.calls.filter (fun c => match c with | JsCall.resolve _ => false | JsCall.reject _ => true)).length

/-- The single-resolution contract of a call: `resolv` or `reject` is invoked
exactly once in total. -/
def Run.settledOnce (r : Run) : Prop := r.resolves + r.rejects = 1

instance (r : Run) : Decidable r.settledOnce := by
  unfold Run.settledOnce; infer_instance

/-! ## Reading the positional arguments -/

/-- The expression `args[i].String()`: a panic when `i` is out of range. -/
def argAt (args : List GoStr) (i : Nat) : Except Panic GoStr :=
  match args.get? i with
  | some a => Except.ok a
  | none => Except.error (Panic.indexOutOfRange i args.length)

/-- Argument block of `createFile`, `ls` and `git_clone`:
`if len(args) > 0 { x = args[0].String() }`. -/
def readArgs1 (args : List GoStr) : Except Panic GoStr :=
  if args.length > 0 then argAt args 0 else Except.ok []

/-- Argument block of `writeNewFile`, `encrypt_text` and `decrypt_text`:
`if len(args) > 0 { a = args[0].String(); b = args[1].String() }`. -/
def readArgs2 (args : List GoStr) : Except Panic (GoStr × GoStr) :=
  if args.length > 0 then do
    let a ← argAt args 0
    let b ← argAt args 1
    pure (a, b)
  else Except.ok ([], [])

/-- The six parameters of `git_push`. -/
structure PushArgs where
  url : GoStr
  accessToken : GoStr
  username : GoStr
  email : GoStr
  file : GoStr
  commitMessage : GoStr
  deriving DecidableEq, Repr

/-- Argument block of `git_push`: `if len(args) > 0 { url = args[0].String(); ...;
commitMessage = args[5].String() }`. -/
def readArgs6 (args : List GoStr) : Except Panic PushArgs :=
  if args.length > 0 then do
    let url ← argAt args 0
    let accessToken ← argAt args 1
    let username ← argAt args 2
    let email ← argAt args 3
    let file ← argAt args 4
    let commitMessage ← argAt args 5
    pure ⟨url, accessToken, username, email, file, commitMessage⟩
  else Except.ok ⟨[], [], [], [], [], []⟩

/-! ## `encoding/hex` and `strings.TrimPrefix` -/

/-- The table `hextable = "0123456789abcdef"` of `encoding/hex`. -/
def hextable : List Nat := [48, 49, 50, 51, 52, 53, 54, 55, 56, 57, 97, 98, 99, 100, 101, 102]

/-- The function `hex.EncodeToString`: two table characters per byte,
`hextable[v>>4]` then `hextable[v&0x0f]`. -/
def hexEncodeToString : GoStr → GoStr
  | [] => []
  | v :: rest => hextable.getD (v >>> 4) 0 :: hextable.getD (v &&& 15) 0 :: hexEncodeToString rest

/-- The function `fromHexChar` of `encoding/hex`. -/
def fromHexChar (c : Nat) : Option Nat :=
  if 48 ≤ c ∧ c ≤ 57 then some (c - 48)
  else if 97 ≤ c ∧ c ≤ 102 then some (c - 97 + 10)
  else if 65 ≤ c ∧ c ≤ 70 then some (c - 65 + 10)
  else none

/-- The function `hex.DecodeString`: the bytes decoded before the first error,
and the error. A bad character is reported before an odd length. -/
def hexDecodeString : GoStr → GoStr × Option GoError
  | [] => ([], none)
  | [c] =>
    match fromHexChar c with
    | none => ([], some (GoError.hexInvalidByte c))
    | some _ => ([], some GoError.hexErrLength)
  | p :: q :: rest =>
    match fromHexChar p with
    | none => ([], some (GoError.hexInvalidByte p))
    | some a =>
      match fromHexChar q with
      | none => ([], some (GoError.hexInvalidByte q))
      | some b =>
        let r := hexDecodeString rest
        (((a <<< 4) ||| b) :: r.1, r.2)

/-- The call `strings.TrimPrefix(s, "\"")`: drops one leading quote character. -/
def trimQuotePrefix (s : GoStr) : GoStr :=
  match s with
  | 34 :: rest => rest
  | _ => s

/-! ## `crypto/aes` and `cipher.NewCTR` -/

/-- The AES block function, kept abstract: any function from a key and a
16-byte block to a 16-byte block. -/
structure BlockCipher where
  /-- The method `Encrypt` of the block built from `key`, applied to one block. -/
  encrypt : GoStr → GoStr → GoStr
  /-- The output is one block of `BlockSize() = 16` bytes. -/
  length_encrypt : ∀ key block, (encrypt key block).length = 16
  /-- The output consists of bytes. -/
  bytes_encrypt : ∀ key block, isBytes (encrypt key block) = true

/-- The function `aes.NewCipher`: a block handle (the key it was built from) for
key lengths 16, 24 and 32, and `nil, KeySizeError(len(key))` otherwise. -/
def aesNewCipher (key : GoStr) : Option GoStr × Option GoError :=
  if key.length = 16 ∨ key.length = 24 ∨ key.length = 32 then (some key, none)
  else (none, some (GoError.aesKeySize key.length))

/-- The counter increment loop of `ctr.refill`, on the counter with its last
byte first: add one to a byte and stop unless it wrapped to zero. -/
def incrementRev : List Nat → List Nat
  | [] => []
  | b :: rest => if (b + 1) % 256 ≠ 0 then (b + 1) % 256 :: rest else 0 :: incrementRev rest

/-- The counter after one block: a big-endian increment with wrap-around. -/
def ctrIncrement (ctr : GoStr) : GoStr := (incrementRev ctr.reverse).reverse

/-- The first `n` blocks of the CTR keystream: the encryptions of the
successive counter values. -/
def ctrKeystream (A : BlockCipher) (key ctr : GoStr) : Nat → GoStr
  | 0 => []
  | n + 1 => A.encrypt key ctr ++ ctrKeystream A key (ctrIncrement ctr) n

/-- The call `stream.XORKeyStream(dst, src)` on a fresh stream `NewCTR(block, iv)`
with `len(dst) = len(src)`: each source byte xored with its keystream byte. -/
def xorKeyStream (A : BlockCipher) (key iv src : GoStr) : GoStr :=
  List.zipWith (fun x y => x ^^^ y) src (ctrKeystream A key iv ((src.length + 15) / 16))

/-! ## The stream cipher operations -/

/-- The background task of `encrypt_text` (wasm.go, lines 260-280). -/
def encrypt_text_task (A : BlockCipher) (text key : GoStr) : Run :=
  let key := trimQuotePrefix key
  let dec := hexDecodeString key
  let c1 := rejectIf dec.2
  let blk := aesNewCipher dec.1
  let c2 := c1 ++ rejectIf blk.2
  match blk.1 with
  | none => ⟨c2, some Panic.nilDereference⟩
  | some block =>
    let iv := dec.1.take 16
    if iv.length ≠ 16 then ⟨c2, some Panic.ivLength⟩
    else
      let ciphertext := xorKeyStream A block iv text
      let hexEncoded := hexEncodeToString ciphertext
      ⟨c2 ++ [JsCall.resolve (JsVal.str hexEncoded)], none⟩

/-- The operation `encrypt_text` (wasm.go, lines 246-286): read the arguments, then run the task. -/
def encrypt_text (A : BlockCipher) (args : List GoStr) : Run :=
  match readArgs2 args with
  | Except.error p => ⟨[], some p⟩
  | Except.ok (text, key) => encrypt_text_task A text key

/-- The background task of `decrypt_text` (wasm.go, lines 302-327). -/
def decrypt_text_task (A : BlockCipher) (text key : GoStr) : Run :=
  let text := trimQuotePrefix text
  let key := trimQuotePrefix key
  let decText := hexDecodeString text
  let c1 := rejectIf decText.2
  let decKey := hexDecodeString key
  let c2 := c1 ++ rejectIf decKey.2
  let blk := aesNewCipher decKey.1
  let c3 := c2 ++ rejectIf blk.2
  match blk.1 with
  | none => ⟨c3, some Panic.nilDereference⟩
  | some block =>
    let iv := decKey.1.take 16
    if iv.length ≠ 16 then ⟨c3, some Panic.ivLength⟩
    else
      let plaintext := xorKeyStream A block iv decText.1
      ⟨c3 ++ [JsCall.resolve (JsVal.str plaintext)], none⟩

/-- The operation `decrypt_text` (wasm.go, lines 288-334): read the arguments, then run the task. -/
def decrypt_text (A : BlockCipher) (args : List GoStr) : Run :=
  match readArgs2 args with
  | Except.error p => ⟨[], some p⟩
  | Except.ok (text, key) => decrypt_text_task A text key

/-- A concrete block function used to evaluate the operations: byte `i` of the
output is `key[i] + block[i] + i` modulo 256. -/
def sampleCipher : BlockCipher where
  encrypt key block := (List.range 16).map (fun i => (key.getD i 0 + block.getD i 0 + i) % 256)
  length_encrypt := by intro key block; simp
  bytes_encrypt := by
    intro key block
    simp only [isBytes, List.all_eq_true, List.mem_map, decide_eq_true_eq]
    rintro x ⟨i, -, rfl⟩
    exact Nat.mod_lt _ (by decide)

/-! ## The virtual filesystem and the file operations -/

/-- The capability `billy.Filesystem` as used by `wasm.go`: `Create`, `File.Write`
and `ReadDir`, over a filesystem state `F` and file handles `H`. -/
structure Billy (F H : Type) where
  /-- The method `Create(filename)`: the new state, the handle and the error. -/
  create : F → GoStr → F × Option H × Option GoError
  /-- The method `Write(p)` of a file handle: the new state, the count and the error. -/
  write : F → H → GoStr → F × Nat × Option GoError
  /-- The method `ReadDir(path)`: the entry names in order, and the error. -/
  readDir : F → GoStr → List GoStr × Option GoError

/-- The string "File created". -/
def msgFileCreated : GoStr := lit "File created"

/-- The background task of `createFile` (wasm.go, lines 42-51): any error of
`Create` is replaced by the fixed error "file not created". -/
def createFile_task {F H : Type} (B : Billy F H) (file : GoStr) (fs : F) : Run × F :=
  let r := B.create fs file
  match r.2.2 with
  | none => (⟨[JsCall.resolve (JsVal.str msgFileCreated)], none⟩, r.1)
  | some _ => (⟨[JsCall.reject GoError.fileNotCreated], none⟩, r.1)

/-- The operation `createFile` (wasm.go, lines 30-57). -/
def createFile {F H : Type} (B : Billy F H) (args : List GoStr) (fs : F) : Run × F :=
  match readArgs1 args with
  | Except.error p => (⟨[], some p⟩, fs)
  | Except.ok file => createFile_task B file fs

/-- The background task of `ls` (wasm.go, lines 71-84). -/
def ls_task {F H : Type} (B : Billy F H) (dir : GoStr) (fs : F) : Run × F :=
  let r := B.readDir fs dir
  match r.2 with
  | some e => (⟨[JsCall.reject e], none⟩, fs)
  | none => (⟨[JsCall.resolve (JsVal.arr r.1)], none⟩, fs)

/-- The operation `ls` (wasm.go, lines 59-90). -/
def ls {F H : Type} (B : Billy F H) (args : List GoStr) (fs : F) : Run × F :=
  match readArgs1 args with
  | Except.error p => (⟨[], some p⟩, fs)
  | Except.ok dir => ls_task B dir fs

/-- The background task of `writeNewFile` (wasm.go, lines 106-119): `Create`,
then on success one `Write` of all of `content`. -/
def writeNewFile_task {F H : Type} (B : Billy F H) (file content : GoStr) (fs : F) : Run × F :=
  let r := B.create fs file
  match r.2.2 with
  | some e => (⟨[JsCall.reject e], none⟩, r.1)
  | none =>
    match r.2.1 with
    | none => (⟨[], some Panic.nilDereference⟩, r.1)
    | some f =>
      let w := B.write r.1 f content
      match w.2.2 with
      | some e => (⟨[JsCall.reject e], none⟩, w.1)
      | none => (⟨[JsCall.resolve (JsVal.str msgFileCreated)], none⟩, w.1)

/-- The operation `writeNewFile` (wasm.go, lines 92-125), registered as `touchNcat`. -/
def writeNewFile {F H : Type} (B : Billy F H) (args : List GoStr) (fs : F) : Run × F :=
  match readArgs2 args with
  | Except.error p => (⟨[], some p⟩, fs)
  | Except.ok (file, content) => writeNewFile_task B file content fs

/-- The state of the in-memory filesystem `memfs.New()`: the stored files, path
and content, in order of creation. -/
abbrev MemFS := List (GoStr × GoStr)

/-- A file handle of the in-memory filesystem. -/
structure MemFile where
  /-- The path the handle was opened at. -/
  name : GoStr
  /-- The write position. -/
  position : Nat
  /-- The handle was opened with `O_RDWR` or `O_WRONLY`. -/
  writable : Bool
  /-- The handle has been closed. -/
  isClosed : Bool
  deriving DecidableEq, Repr

/-- The content stored at a path, if any. -/
def MemFS.readFile (fs : MemFS) (path : GoStr) : Option GoStr :=
  (fs.find? (fun e => decide (e.1 = path))).map Prod.snd

/-- Replace the content stored at a path, or add the path. -/
def MemFS.store (fs : MemFS) (path content : GoStr) : MemFS :=
  match fs with
  | [] => [(path, content)]
  | e :: rest => if e.1 = path then (path, content) :: rest else e :: MemFS.store rest path content

/-- The method `content.WriteAt(p, off)` of the in-memory filesystem: pad with
zero bytes up to `off`, put `p` at `off`, keep what the old content had beyond. -/
def contentWriteAt (bytes p : GoStr) (off : Nat) : GoStr :=
  let padded := bytes ++ List.replicate (off - bytes.length) 0
  let written := padded.take off ++ p
  if written.length < bytes.length then written ++ bytes.drop written.length else written

/-- The in-memory filesystem. `Create` opens with `O_RDWR|O_CREATE|O_TRUNC`: the
file is created or truncated and the handle starts at position 0. Which paths
it refuses (`pathError`) and how it lists a directory (`listing`) are left to
the library. -/
def memfs (pathError : MemFS → GoStr → Option GoError)
    (listing : MemFS → GoStr → List GoStr × Option GoError) : Billy MemFS MemFile where
  create fs path :=
    match pathError fs path with
    | some e => (fs, none, some e)
    | none => (MemFS.store fs path [], some ⟨path, 0, true, false⟩, none)
  write fs f p :=
    if f.isClosed then (fs, 0, some (GoError.lib (lit "file already closed")))
    else if !f.writable then (fs, 0, some (GoError.lib (lit "write not supported")))
    else
      let old := (MemFS.readFile fs f.name).getD []
      (MemFS.store fs f.name (contentWriteAt old p f.position), p.length, none)
  readDir := listing

/-! ## The version-control engine and the repository operations -/

/-- The author signature of a commit. -/
structure Signature where
  name : GoStr
  email : GoStr
  when : Nat
  deriving DecidableEq, Repr

/-- The options of `repo.Push`: remote URL and basic-auth credentials. -/
structure PushOptions where
  remoteURL : GoStr
  username : GoStr
  password : GoStr
  deriving DecidableEq, Repr

/-- The version-control engine as used by `wasm.go`, over a storage state `S`,
repository handles `R` and worktree handles `W`. A call that returns
`(handle, err)` yields both as options; a handle is `none` when it is nil. -/
structure GitEngine (S R W : Type) where
  /-- The function `gogit.Clone(storage, worktree, {URL: url})`. -/
  clone : S → GoStr → S × Option R × Option GoError
  /-- The function `gogit.Open(storage, worktree)`. -/
  openRepo : S → Option R × Option GoError
  /-- The method `repo.Worktree()`. -/
  worktree : S → R → Option W × Option GoError
  /-- The method `w.Add(file)`. -/
  add : S → W → GoStr → S × Option GoError
  /-- The method `w.Commit(message, {Author: signature})`. -/
  commit : S → W → GoStr → Signature → S × Option GoError
  /-- The method `repo.Push(options)`. -/
  push : S → R → PushOptions → S × Option GoError
  /-- The commits of the local history, oldest first. -/
  history : S → List (GoStr × Signature)

/-- The string "Repo cloned". -/
def msgRepoCloned : GoStr := lit "Repo cloned"

/-- The string "Pushed". -/
def msgPushed : GoStr := lit "Pushed"

/-- The background task of `git_clone` (wasm.go, lines 143-153). -/
def git_clone_task {S R W : Type} (E : GitEngine S R W) (url : GoStr) (s : S) : Run × S :=
  let r := E.clone s url
  match r.2.2 with
  | some e => (⟨[JsCall.reject e], none⟩, r.1)
  | none => (⟨[JsCall.resolve (JsVal.str msgRepoCloned)], none⟩, r.1)

/-- The operation `git_clone` (wasm.go, lines 128-159). -/
def git_clone {S R W : Type} (E : GitEngine S R W) (args : List GoStr) (s : S) : Run × S :=
  match readArgs1 args with
  | Except.error p => (⟨[], some p⟩, s)
  | Except.ok url => git_clone_task E url s

/-- The background task of `git_push` (wasm.go, lines 196-239). No `reject` is
followed by a `return`: each step runs on what the previous one left, and a
method called on a nil repository or worktree handle panics. -/
def git_push_task {S R W : Type} (E : GitEngine S R W) (now : Nat) (a : PushArgs) (s : S) :
    Run × S :=
  let o := E.openRepo s
  let c1 := rejectIf o.2
  match o.1 with
  | none => (⟨c1, some Panic.nilDereference⟩, s)
  | some repo =>
    let wt := E.worktree s repo
    let c2 := c1 ++ rejectIf wt.2
    match wt.1 with
    | none => (⟨c2, some Panic.nilDereference⟩, s)
    | some w =>
      let ad := E.add s w a.file
      let c3 := c2 ++ rejectIf ad.2
      let cm := E.commit ad.1 w a.commitMessage ⟨a.username, a.email, now⟩
      let c4 := c3 ++ rejectIf cm.2
      let pu := E.push cm.1 repo ⟨a.url, a.username, a.accessToken⟩
      match pu.2 with
      | some e => (⟨c4 ++ [JsCall.reject e], none⟩, pu.1)
      | none => (⟨c4 ++ [JsCall.resolve (JsVal.str msgPushed)], none⟩, pu.1)

/-- The operation `git_push` (wasm.go, lines 161-244); `now` is the value of
`time.Now()` at the commit. -/
def git_push {S R W : Type} (E : GitEngine S R W) (now : Nat) (args : List GoStr) (s : S) :
    Run × S :=
  match readArgs6 args with
  | Except.error p => (⟨[], some p⟩, s)
  | Except.ok a => git_push_task E now a s

/-! ## Concrete dependencies for evaluating the operations -/

/-- A filesystem that refuses the empty path only and lists every stored path. -/
def sampleFS : Billy MemFS MemFile :=
  memfs (fun _ path => if path = [] then some (GoError.lib (lit "invalid path")) else none)
    (fun fs _ => (fs.map Prod.fst, none))

/-- The storage state of the sample engine. -/
structure SampleStore where
  /-- A repository has been cloned into the storage. -/
  cloned : Bool
  /-- The files of the working tree. -/
  files : List GoStr
  /-- The staged files. -/
  staged : List GoStr
  /-- The local commits, oldest first. -/
  commits : List (GoStr × Signature)
  deriving DecidableEq, Repr

/-- A small engine: `Open` fails with a nil handle before a clone, `Add` fails
on a file that is not in the working tree, `Commit` appends one commit, `Push`
fails on an empty remote URL and leaves the storage as it is. -/
def sampleEngine : GitEngine SampleStore Unit Unit where
  clone s url :=
    if url = [] then (s, none, some (GoError.lib (lit "URL field is required")))
    else ({ s with cloned := true }, some (), none)
  openRepo s :=
    if s.cloned then (some (), none) else (none, some (GoError.lib (lit "repository does not exist")))
  worktree _ _ := (some (), none)
  add s _ file :=
    if file ∈ s.files then ({ s with staged := file :: s.staged }, none)
    else (s, some (GoError.lib (lit "entry not found")))
  commit s _ message signature :=
    ({ s with staged := [], commits := s.commits ++ [(message, signature)] }, none)
  push s _ options :=
    if options.remoteURL = [] then (s, some (GoError.lib (lit "remote not found"))) else (s, none)
  history s := s.commits

/-- A key of 64 hex characters: the bytes 0 to 15, twice. -/
def key64 : GoStr := lit "000102030405060708090a0b0c0d0e0f000102030405060708090a0b0c0d0e0f"

/-- A key of 32 hex characters: the bytes 0 to 15. -/
def key32 : GoStr := lit "000102030405060708090a0b0c0d0e0f"

/-- The storage before any clone. -/
def emptyStore : SampleStore := ⟨false, [], [], []⟩

/-- A cloned repository whose working tree holds the file `a`. -/
def clonedStore : SampleStore := ⟨true, [lit "a"], [], []⟩

/-! ## Lemmas on the hex codec -/

set_option maxRecDepth 100000 in
theorem fromHexChar_high : ∀ v, v < 256 →
    fromHexChar (hextable.getD (v >>> 4) 0) = some (v >>> 4) := by decide

set_option maxRecDepth 100000 in
theorem fromHexChar_low : ∀ v, v < 256 →
    fromHexChar (hextable.getD (v &&& 15) 0) = some (v &&& 15) := by decide

set_option maxRecDepth 100000 in
theorem nibbles_join : ∀ v, v < 256 → ((v >>> 4) <<< 4) ||| (v &&& 15) = v := by decide

set_option maxRecDepth 100000 in
theorem hextable_high_ne_quote : ∀ v, v < 256 → hextable.getD (v >>> 4) 0 ≠ 34 := by decide

theorem isBytes_cons (v : Nat) (rest : GoStr) :
    isBytes (v :: rest) = true ↔ v < 256 ∧ isBytes rest = true := by
  simp [isBytes]

theorem isBytes_append (a b : GoStr) :
    isBytes (a ++ b) = true ↔ isBytes a = true ∧ isBytes b = true := by
  simp [isBytes]

/-- Decoding the hex encoding of a byte string gives the byte string and no error. -/
theorem hexDecode_hexEncode (bs : GoStr) (h : isBytes bs = true) :
    hexDecodeString (hexEncodeToString bs) = (bs, none) := by
  induction bs with
  | nil => rfl
  | cons v rest ih =>
    obtain ⟨hv, hrest⟩ := (isBytes_cons v rest).mp h
    simp only [hexEncodeToString, hexDecodeString, fromHexChar_high v hv, fromHexChar_low v hv,
      nibbles_join v hv, ih hrest]

/-- A hex encoding never starts with a quote character. -/
theorem trimQuotePrefix_hexEncode (bs : GoStr) (h : isBytes bs = true) :
    trimQuotePrefix (hexEncodeToString bs) = hexEncodeToString bs := by
  cases bs with
  | nil => rfl
  | cons v rest =>
    obtain ⟨hv, -⟩ := (isBytes_cons v rest).mp h
    have hq := hextable_high_ne_quote v hv
    simp only [hexEncodeToString]
    unfold trimQuotePrefix
    split
    · rename_i heq
      exact absurd (List.cons.inj heq).1 hq
    · rfl

/-! ## Lemmas on the CTR stream -/

theorem length_ctrKeystream (A : BlockCipher) (key ctr : GoStr) (n : Nat) :
    (ctrKeystream A key ctr n).length = 16 * n := by
  induction n generalizing ctr with
  | zero => rfl
  | succ n ih => simp only [ctrKeystream, List.length_append, A.length_encrypt, ih]; omega

theorem isBytes_ctrKeystream (A : BlockCipher) (key ctr : GoStr) (n : Nat) :
    isBytes (ctrKeystream A key ctr n) = true := by
  induction n generalizing ctr with
  | zero => rfl
  | succ n ih => simp only [ctrKeystream, isBytes_append, A.bytes_encrypt, ih, and_self]

theorem length_xorKeyStream (A : BlockCipher) (key iv src : GoStr) :
    (xorKeyStream A key iv src).length = src.length := by
  simp only [xorKeyStream, List.length_zipWith, length_ctrKeystream]
  omega

theorem isBytes_zipWith_xor (a b : GoStr) (ha : isBytes a = true) (hb : isBytes b = true) :
    isBytes (List.zipWith (fun x y => x ^^^ y) a b) = true := by
  induction a generalizing b with
  | nil => rfl
  | cons x xs ih =>
    cases b with
    | nil => rfl
    | cons y ys =>
      obtain ⟨hx, hxs⟩ := (isBytes_cons x xs).mp ha
      obtain ⟨hy, hys⟩ := (isBytes_cons y ys).mp hb
      rw [List.zipWith_cons_cons, isBytes_cons]
      exact ⟨Nat.xor_lt_two_pow (n := 8) hx hy, ih ys hxs hys⟩

theorem isBytes_xorKeyStream (A : BlockCipher) (key iv src : GoStr) (h : isBytes src = true) :
    isBytes (xorKeyStream A key iv src) = true :=
  isBytes_zipWith_xor _ _ h (isBytes_ctrKeystream A key iv _)

/-- Xoring twice with a stream that is long enough gives the source back. -/
theorem zipWith_xor_cancel (src ks : GoStr) (h : src.length ≤ ks.length) :
    List.zipWith (fun x y => x ^^^ y) (List.zipWith (fun x y => x ^^^ y) src ks) ks = src := by
  induction src generalizing ks with
  | nil => rfl
  | cons x xs ih =>
    cases ks with
    | nil => simp at h
    | cons y ys =>
      simp only [List.zipWith_cons_cons, Nat.xor_cancel_right]
      rw [ih ys (by simpa using h)]

/-- Two sources of equal length xored with one stream: the stream cancels. -/
theorem zipWith_xor_reuse (s1 s2 ks : GoStr) (hlen : s1.length = s2.length)
    (h : s1.length ≤ ks.length) :
    List.zipWith (fun x y => x ^^^ y) (List.zipWith (fun x y => x ^^^ y) s1 ks)
      (List.zipWith (fun x y => x ^^^ y) s2 ks) = List.zipWith (fun x y => x ^^^ y) s1 s2 := by
  induction s1 generalizing s2 ks with
  | nil => rfl
  | cons x xs ih =>
    cases s2 with
    | nil => simp at hlen
    | cons z zs =>
      cases ks with
      | nil => simp at h
      | cons y ys =>
        simp only [List.zipWith_cons_cons]
        rw [ih zs ys (by simpa using hlen) (by simpa using h)]
        congr 1
        rw [Nat.xor_assoc, Nat.xor_comm z y, ← Nat.xor_assoc y, Nat.xor_self, Nat.zero_xor]

/-- Applying the stream of one key and counter twice gives the source back. -/
theorem xorKeyStream_xorKeyStream (A : BlockCipher) (key iv src : GoStr) :
    xorKeyStream A key iv (xorKeyStream A key iv src) = src := by
  have hl := length_xorKeyStream A key iv src
  unfold xorKeyStream at hl ⊢
  rw [hl]
  exact zipWith_xor_cancel src _ (by rw [length_ctrKeystream]; omega)

/-! ## The stream cipher operations on well-formed input -/

theorem readArgs2_pair (a b : GoStr) : readArgs2 [a, b] = Except.ok (a, b) := rfl

/-- With a key string that decodes without error to 16, 24 or 32 bytes, the
task of `encrypt_text` makes one call: `resolv` with the hex ciphertext. -/
theorem encrypt_text_task_valid (A : BlockCipher) (text key kb : GoStr)
    (hdec : hexDecodeString (trimQuotePrefix key) = (kb, none))
    (hlen : kb.length = 16 ∨ kb.length = 24 ∨ kb.length = 32) :
    encrypt_text_task A text key =
      ⟨[JsCall.resolve (JsVal.str (hexEncodeToString (xorKeyStream A kb (kb.take 16) text)))],
        none⟩ := by
  have htake : (kb.take 16).length = 16 := by
    rw [List.length_take]; omega
  simp [encrypt_text_task, hdec, aesNewCipher, hlen, rejectIf, htake]

/-- With a text that decodes without error and a key string that decodes
without error to 16, 24 or 32 bytes, the task of `decrypt_text` makes one call:
`resolv` with the xored bytes. -/
theorem decrypt_text_task_valid (A : BlockCipher) (text key tb kb : GoStr)
    (htext : hexDecodeString (trimQuotePrefix text) = (tb, none))
    (hdec : hexDecodeString (trimQuotePrefix key) = (kb, none))
    (hlen : kb.length = 16 ∨ kb.length = 24 ∨ kb.length = 32) :
    decrypt_text_task A text key =
      ⟨[JsCall.resolve (JsVal.str (xorKeyStream A kb (kb.take 16) tb))], none⟩ := by
  have htake : (kb.take 16).length = 16 := by
    rw [List.length_take]; omega
  simp [decrypt_text_task, htext, hdec, aesNewCipher, hlen, rejectIf, htake]

/-- The hex encoding of a byte string, read back as a key or text argument. -/
theorem hexDecode_trim_hexEncode (bs : GoStr) (h : isBytes bs = true) :
    hexDecodeString (trimQuotePrefix (hexEncodeToString bs)) = (bs, none) := by
  rw [trimQuotePrefix_hexEncode bs h, hexDecode_hexEncode bs h]

/-! ## Lemmas on the in-memory filesystem -/

theorem readFile_store (fs : MemFS) (path content : GoStr) :
    MemFS.readFile (MemFS.store fs path content) path = some content := by
  induction fs with
  | nil => simp [MemFS.store, MemFS.readFile]
  | cons e rest ih =>
    unfold MemFS.store
    by_cases h : e.1 = path
    · simp [h, MemFS.readFile]
    · simp only [h, if_false]
      simp only [MemFS.readFile, List.find?_cons, decide_eq_false h] at ih ⊢
      exact ih

theorem contentWriteAt_empty (p : GoStr) : contentWriteAt [] p 0 = p := by
  simp [contentWriteAt]

/-! ## The operations whose task ends each branch with one callback -/

theorem createFile_task_settledOnce {F H : Type} (B : Billy F H) (file : GoStr) (fs : F) :
    (createFile_task B file fs).1.settledOnce := by
  simp only [createFile_task]
  cases (B.create fs file).2.2 <;>
    simp [Run.settledOnce, Run.resolves, Run.rejects]

theorem ls_task_settledOnce {F H : Type} (B : Billy F H) (dir : GoStr) (fs : F) :
    (ls_task B dir fs).1.settledOnce := by
  simp only [ls_task]
  cases (B.readDir fs dir).2 <;> simp [Run.settledOnce, Run.resolves, Run.rejects]

theorem git_clone_task_settledOnce {S R W : Type} (E : GitEngine S R W) (url : GoStr) (s : S) :
    (git_clone_task E url s).1.settledOnce := by
  simp only [git_clone_task]
  cases (E.clone s url).2.2 <;> simp [Run.settledOnce, Run.resolves, Run.rejects]

/-- The argument block of the one-parameter operations never panics: the
parameter is the first argument, or the empty string. -/
theorem readArgs1_ok (args : List GoStr) : readArgs1 args = Except.ok (args.getD 0 []) := by
  cases args with
  | nil => rfl
  | cons a rest => simp [readArgs1, argAt]

/-- The argument block of the two-parameter operations panics exactly on one argument. -/
theorem readArgs2_panics_iff (args : List GoStr) :
    (∃ p, readArgs2 args = Except.error p) ↔ args.length = 1 := by
  match args with
  | [] => simp [readArgs2]
  | [a] => simp [readArgs2, argAt, bind, Except.bind]
  | a :: b :: rest => simp [readArgs2, argAt, bind, Except.bind, pure, Except.pure]

/-- The argument block of `git_push` panics exactly on one to five arguments. -/
theorem readArgs6_panics_iff (args : List GoStr) :
    (∃ p, readArgs6 args = Except.error p) ↔ 1 ≤ args.length ∧ args.length ≤ 5 := by
  match args with
  | [] => simp [readArgs6]
  | [a] => simp [readArgs6, argAt, bind, Except.bind]
  | [a, b] => simp [readArgs6, argAt, bind, Except.bind]
  | [a, b, c] => simp [readArgs6, argAt, bind, Except.bind]
  | [a, b, c, d] => simp [readArgs6, argAt, bind, Except.bind]
  | [a, b, c, d, e] => simp [readArgs6, argAt, bind, Except.bind]
  | a :: b :: c :: d :: e :: f :: rest =>
    simp [readArgs6, argAt, bind, Except.bind, pure, Except.pure]

/-- When `Open` returns a nil repository handle, the task of `git_push` makes
the calls of `rejectIf` on the open error and then panics. -/
theorem git_push_task_open_nil {S R W : Type} (E : GitEngine S R W) (now : Nat) (a : PushArgs)
    (s : S) (h : (E.openRepo s).1 = none) :
    git_push_task E now a s = (⟨rejectIf (E.openRepo s).2, some Panic.nilDereference⟩, s) := by
  simp [git_push_task, h]

/-! ## Claims -/

/-- C2: for every plaintext byte string `s` and every 32-byte key `k`,
`encrypt_text(s, hex(k))` resolves with a hex ciphertext `c` and nothing else,
and `decrypt_text(c, hex(k))` resolves with exactly `s` and nothing else, for
any block function in the place of AES. -/
theorem encrypt_decrypt_round_trip (A : BlockCipher) (s k : GoStr)
    (hs : isBytes s = true) (hk : isBytes k = true) (hlen : k.length = 32) :
    ∃ c, encrypt_text A [s, hexEncodeToString k] = ⟨[JsCall.resolve (JsVal.str c)], none⟩ ∧
      decrypt_text A [c, hexEncodeToString k] = ⟨[JsCall.resolve (JsVal.str s)], none⟩ := by
  have hkey := hexDecode_trim_hexEncode k hk
  have hl : k.length = 16 ∨ k.length = 24 ∨ k.length = 32 := Or.inr (Or.inr hlen)
  refine ⟨hexEncodeToString (xorKeyStream A k (k.take 16) s), ?_, ?_⟩
  · simp only [encrypt_text, readArgs2_pair]
    exact encrypt_text_task_valid A s _ k hkey hl
  · simp only [decrypt_text, readArgs2_pair]
    have hct := hexDecode_trim_hexEncode _ (isBytes_xorKeyStream A k (k.take 16) s hs)
    rw [decrypt_text_task_valid A _ _ _ k hct hkey hl, xorKeyStream_xorKeyStream]

/-- C2, at a concrete input: the text "hi" under the key of bytes 0 to 31. -/
theorem encrypt_decrypt_round_trip_witness :
    ∃ c, encrypt_text sampleCipher [lit "hi", hexEncodeToString (List.range 32)] =
        ⟨[JsCall.resolve (JsVal.str c)], none⟩ ∧
      decrypt_text sampleCipher [c, hexEncodeToString (List.range 32)] =
        ⟨[JsCall.resolve (JsVal.str (lit "hi"))], none⟩ :=
  encrypt_decrypt_round_trip sampleCipher (lit "hi") (List.range 32) (by decide) (by decide)
    (by decide)

/-- C8: for every key string that decodes to 16, 24 or 32 bytes and every two
plaintexts of equal length, both `encrypt_text` calls resolve, their hex
ciphertexts decode without error, and the bytewise xor of the decoded
ciphertexts is the bytewise xor of the plaintexts. -/
theorem keystream_reuse (A : BlockCipher) (key kb s1 s2 : GoStr)
    (hdec : hexDecodeString (trimQuotePrefix key) = (kb, none))
    (hlen : kb.length = 16 ∨ kb.length = 24 ∨ kb.length = 32)
    (h1 : isBytes s1 = true) (h2 : isBytes s2 = true) (heq : s1.length = s2.length) :
    ∃ c1 c2 b1 b2, encrypt_text A [s1, key] = ⟨[JsCall.resolve (JsVal.str c1)], none⟩ ∧
      encrypt_text A [s2, key] = ⟨[JsCall.resolve (JsVal.str c2)], none⟩ ∧
      hexDecodeString c1 = (b1, none) ∧ hexDecodeString c2 = (b2, none) ∧
      List.zipWith (fun x y => x ^^^ y) b1 b2 = List.zipWith (fun x y => x ^^^ y) s1 s2 := by
  refine ⟨_, _, xorKeyStream A kb (kb.take 16) s1, xorKeyStream A kb (kb.take 16) s2, ?_, ?_,
    hexDecode_hexEncode _ (isBytes_xorKeyStream A kb _ s1 h1),
    hexDecode_hexEncode _ (isBytes_xorKeyStream A kb _ s2 h2), ?_⟩
  · simp only [encrypt_text, readArgs2_pair]
    exact encrypt_text_task_valid A s1 key kb hdec hlen
  · simp only [encrypt_text, readArgs2_pair]
    exact encrypt_text_task_valid A s2 key kb hdec hlen
  · unfold xorKeyStream
    rw [← heq]
    exact zipWith_xor_reuse s1 s2 _ heq (by rw [length_ctrKeystream]; omega)

/-- C8, at a concrete input: the texts "hi" and "yo" under the key `key64`. -/
theorem keystream_reuse_witness :
    ∃ c1 c2 b1 b2, encrypt_text sampleCipher [lit "hi", key64] =
        ⟨[JsCall.resolve (JsVal.str c1)], none⟩ ∧
      encrypt_text sampleCipher [lit "yo", key64] = ⟨[JsCall.resolve (JsVal.str c2)], none⟩ ∧
      hexDecodeString c1 = (b1, none) ∧ hexDecodeString c2 = (b2, none) ∧
      List.zipWith (fun x y => x ^^^ y) b1 b2 =
        List.zipWith (fun x y => x ^^^ y) (lit "hi") (lit "yo") :=
  keystream_reuse sampleCipher key64 (List.range 16 ++ List.range 16) (lit "hi") (lit "yo")
    (by decide) (by decide) (by decide) (by decide) (by decide)

/-- C9, as stated, fails: the 32-character key `key32` is valid hex of decoded
length 16, not 32, and `encrypt_text` resolves with a ciphertext and rejects nothing. -/
theorem encrypt_text_key16_resolves :
    hexDecodeString (trimQuotePrefix key32) = (List.range 16, none) ∧
      encrypt_text sampleCipher [lit "hi", key32] =
        ⟨[JsCall.resolve (JsVal.str (lit "686a"))], none⟩ := by
  decide

/-- C9, amended: for every key string that is valid hex and whose decoded
length is none of 16, 24 and 32, the only callback `encrypt_text` invokes is
`reject` with the key size error; it never resolves. -/
theorem encrypt_text_wrong_key_size (A : BlockCipher) (text key kb : GoStr)
    (hdec : hexDecodeString (trimQuotePrefix key) = (kb, none))
    (h16 : kb.length ≠ 16) (h24 : kb.length ≠ 24) (h32 : kb.length ≠ 32) :
    (encrypt_text A [text, key]).calls = [JsCall.reject (GoError.aesKeySize kb.length)] := by
  simp [encrypt_text, readArgs2_pair, encrypt_text_task, hdec, aesNewCipher, h16, h24, h32,
    rejectIf]

/-- C9, amended, at a concrete input: the key "0001" of decoded length 2. -/
theorem encrypt_text_wrong_key_size_witness :
    (encrypt_text sampleCipher [lit "hi", lit "0001"]).calls =
      [JsCall.reject (GoError.aesKeySize 2)] :=
  encrypt_text_wrong_key_size sampleCipher (lit "hi") (lit "0001") [0, 1] (by decide)
    (by decide) (by decide) (by decide)

/-- C10: for every state of the in-memory filesystem, every path it accepts and
every content, `writeNewFile(p, content)` resolves with "File created" and
nothing else, and the file stored at `p` afterwards is exactly `content`. -/
theorem writeNewFile_stores_content (pathError : MemFS → GoStr → Option GoError)
    (listing : MemFS → GoStr → List GoStr × Option GoError) (fs : MemFS) (p content : GoStr)
    (haccept : pathError fs p = none) :
    (writeNewFile (memfs pathError listing) [p, content] fs).1 =
        ⟨[JsCall.resolve (JsVal.str msgFileCreated)], none⟩ ∧
      MemFS.readFile (writeNewFile (memfs pathError listing) [p, content] fs).2 p =
        some content := by
  simp [writeNewFile, readArgs2_pair, writeNewFile_task, memfs, haccept, readFile_store,
    contentWriteAt_empty]

/-- C10, at a concrete input: the path "p" holding other content is rewritten
with the empty string. -/
theorem writeNewFile_stores_content_witness :
    (writeNewFile sampleFS [lit "p", []] [(lit "q", lit "x"), (lit "p", lit "old")]).1 =
        ⟨[JsCall.resolve (JsVal.str msgFileCreated)], none⟩ ∧
      MemFS.readFile
          (writeNewFile sampleFS [lit "p", []] [(lit "q", lit "x"), (lit "p", lit "old")]).2
          (lit "p") = some [] :=
  writeNewFile_stores_content _ _ [(lit "q", lit "x"), (lit "p", lit "old")] (lit "p") []
    (by decide)

/-- C7: for an engine whose successful commit lengthens the history by one,
whose staging leaves the history alone and whose failed push leaves the storage
alone, a `git_push` in which open, worktree, stage and commit succeed and the
push fails invokes `reject` with the push error and nothing else, and ends in
exactly the storage the commit produced, its history one commit longer than
before the call. -/
theorem git_push_failed_push_keeps_commit {S R W : Type} (E : GitEngine S R W) (now : Nat)
    (url token user email file message : GoStr) (s s1 s2 : S) (repo : R) (w : W) (e : GoError)
    (hcommitLaw : ∀ st wt m sig, (E.commit st wt m sig).2 = none →
      (E.history (E.commit st wt m sig).1).length = (E.history st).length + 1)
    (haddLaw : ∀ st wt f, E.history (E.add st wt f).1 = E.history st)
    (hpushLaw : ∀ st r o, (E.push st r o).2 ≠ none → (E.push st r o).1 = st)
    (hopen : E.openRepo s = (some repo, none))
    (hwt : E.worktree s repo = (some w, none))
    (hadd : E.add s w file = (s1, none))
    (hcommit : E.commit s1 w message ⟨user, email, now⟩ = (s2, none))
    (hpush : (E.push s2 repo ⟨url, user, token⟩).2 = some e) :
    git_push E now [url, token, user, email, file, message] s =
        (⟨[JsCall.reject e], none⟩, s2) ∧
      (E.history s2).length = (E.history s).length + 1 := by
  have hs2 : (E.push s2 repo ⟨url, user, token⟩).1 = s2 :=
    hpushLaw s2 repo _ (by rw [hpush]; exact Option.some_ne_none e)
  have hh1 : E.history s1 = E.history s := by
    have := haddLaw s w file
    rwa [hadd] at this
  have hh2 : (E.history s2).length = (E.history s1).length + 1 := by
    have := hcommitLaw s1 w message ⟨user, email, now⟩ (by rw [hcommit])
    rwa [hcommit] at this
  refine ⟨?_, by rw [hh2, hh1]⟩
  have hargs : readArgs6 [url, token, user, email, file, message] =
      Except.ok ⟨url, token, user, email, file, message⟩ := rfl
  simp [git_push, hargs, git_push_task, hopen, hwt, hadd, hcommit, hpush, hs2, rejectIf]

/-- C7, at a concrete input: the sample engine, a cloned repository holding the
file "a", and an empty remote URL, on which the push fails. -/
theorem git_push_failed_push_keeps_commit_witness :
    git_push sampleEngine 7 [[], lit "t", lit "n", lit "e", lit "a", lit "m"] clonedStore =
        (⟨[JsCall.reject (GoError.lib (lit "remote not found"))], none⟩,
          ⟨true, [lit "a"], [], [(lit "m", ⟨lit "n", lit "e", 7⟩)]⟩) ∧
      (sampleEngine.history ⟨true, [lit "a"], [], [(lit "m", ⟨lit "n", lit "e", 7⟩)]⟩).length =
        (sampleEngine.history clonedStore).length + 1 :=
  git_push_failed_push_keeps_commit sampleEngine 7 [] (lit "t") (lit "n") (lit "e") (lit "a")
    (lit "m") clonedStore ⟨true, [lit "a"], [lit "a"], []⟩
    ⟨true, [lit "a"], [], [(lit "m", ⟨lit "n", lit "e", 7⟩)]⟩ () () _
    (by intro st wt m sig _; simp [sampleEngine])
    (by intro st wt f; simp only [sampleEngine]; split <;> rfl)
    (by intro st r o _; simp only [sampleEngine]; split <;> rfl)
    (by decide) (by decide) (by decide) (by decide) (by decide)

/-- C1, at a failing input: `encrypt_text("hi", k)` with `k` the 64 hex
characters of `key64` followed by one more digit invokes both `reject` and
`resolv`, and `encrypt_text("hi", "zz")` invokes `reject` twice and then
panics; neither call settles exactly once. -/
theorem encrypt_text_not_settledOnce :
    (encrypt_text sampleCipher [lit "hi", key64 ++ lit "0"]).rejects = 1 ∧
      (encrypt_text sampleCipher [lit "hi", key64 ++ lit "0"]).resolves = 1 ∧
      ¬ (encrypt_text sampleCipher [lit "hi", key64 ++ lit "0"]).settledOnce ∧
      encrypt_text sampleCipher [lit "hi", lit "zz"] =
        ⟨[JsCall.reject (GoError.hexInvalidByte 122), JsCall.reject (GoError.aesKeySize 0)],
          some Panic.nilDereference⟩ ∧
      ¬ (encrypt_text sampleCipher [lit "hi", lit "zz"]).settledOnce := by
  decide

/-- C3, at failing inputs: with a key of odd length whose first 64 characters
are hex, `encrypt_text` rejects with the decode error and then resolves with a
ciphertext; `decrypt_text` resolves after the decode error of its text ("zz")
and after the decode error of its key. -/
theorem cipher_resolves_after_decode_error :
    (hexDecodeString (trimQuotePrefix (key64 ++ lit "0"))).2 = some GoError.hexErrLength ∧
      encrypt_text sampleCipher [lit "hi", key64 ++ lit "0"] =
        ⟨[JsCall.reject GoError.hexErrLength, JsCall.resolve (JsVal.str (lit "686a"))], none⟩ ∧
      decrypt_text sampleCipher [lit "zz", key64] =
        ⟨[JsCall.reject (GoError.hexInvalidByte 122), JsCall.resolve (JsVal.str [])], none⟩ ∧
      decrypt_text sampleCipher [lit "686a", key64 ++ lit "0"] =
        ⟨[JsCall.reject GoError.hexErrLength, JsCall.resolve (JsVal.str (lit "hi"))], none⟩ := by
  decide

/-- C4, at the failing input: before any clone `Open` returns a nil repository
and an error; `git_push` invokes `reject` with the open error and then panics
on `repo.Worktree()`, called through the nil handle. -/
theorem git_push_before_clone_panics :
    sampleEngine.openRepo emptyStore =
        (none, some (GoError.lib (lit "repository does not exist"))) ∧
      git_push sampleEngine 7 [lit "u", lit "t", lit "n", lit "e", lit "a", lit "m"] emptyStore =
        (⟨[JsCall.reject (GoError.lib (lit "repository does not exist"))],
          some Panic.nilDereference⟩, emptyStore) := by
  decide

/-- C5, at failing inputs: `writeNewFile`, `encrypt_text` and `decrypt_text`
called with one argument, and `git_push` called with one or with five
arguments, panic on an index out of range while reading the arguments, before
any promise is made. -/
theorem readArgs_index_out_of_range :
    readArgs2 [lit "p"] = Except.error (Panic.indexOutOfRange 1 1) ∧
      writeNewFile sampleFS [lit "p"] [] = (⟨[], some (Panic.indexOutOfRange 1 1)⟩, []) ∧
      encrypt_text sampleCipher [lit "hi"] = ⟨[], some (Panic.indexOutOfRange 1 1)⟩ ∧
      decrypt_text sampleCipher [lit "686a"] = ⟨[], some (Panic.indexOutOfRange 1 1)⟩ ∧
      git_push sampleEngine 7 [lit "u"] clonedStore =
        (⟨[], some (Panic.indexOutOfRange 1 1)⟩, clonedStore) ∧
      git_push sampleEngine 7 [lit "u", lit "t", lit "n", lit "e", lit "a"] clonedStore =
        (⟨[], some (Panic.indexOutOfRange 5 5)⟩, clonedStore) := by
  refine ⟨rfl, ?_⟩
  decide

/-- C6, at the failing input: staging the file "b", absent from the working
tree, fails while commit and push succeed; `git_push` invokes `reject` with the
staging error and then `resolv` with "Pushed". -/
theorem git_push_resolves_after_failed_stage :
    (sampleEngine.add clonedStore () (lit "b")).2 = some (GoError.lib (lit "entry not found")) ∧
      (git_push sampleEngine 7 [lit "u", lit "t", lit "n", lit "e", lit "b", lit "m"]
          clonedStore).1 =
        ⟨[JsCall.reject (GoError.lib (lit "entry not found")),
          JsCall.resolve (JsVal.str msgPushed)], none⟩ := by
  decide

end NotesGitStore
